import Mathlib

/-!
Verification of the Score Initializer and Aggregator of `src/app.py`
(Business Opportunity Evaluator).

The Python program loads a spreadsheet into a pandas DataFrame, filters
reserved column names, derives a default 1..5 rating per
(opportunity, differentiator) cell into a session dictionary keyed by the
string `f"{opportunity}_{differentiator}"`, sums the ratings per
opportunity, and ranks opportunities by `DataFrame.sort_values`
descending.  Below is a shallow embedding of that logic: cells are an
inductive type covering the Python scalar kinds the code distinguishes
(`pd.notna`, `isinstance(raw, (int, float, np.number))` — note Python
`bool` is a subclass of `int`), numbers are modelled exactly as rationals,
and Python `round` is round-half-to-even.
-/

namespace BizTool

/-- A spreadsheet cell as seen by the Python code after `pd.read_excel`:
either missing (`NaN`/`None`, i.e. `pd.notna` is false), a finite number
(Python `int` / `float` / `np.number`, modelled exactly as a rational),
a Python `bool` (which satisfies `isinstance(·, int)`), or any other
present non-numeric value such as a string. -/
inductive Cell where
  | missing : Cell
  | num (q : ℚ) : Cell
  | boolean (b : Bool) : Cell
  | text (s : String) : Cell
deriving DecidableEq

/-- Embeds `pd.notna(raw_value)`: false exactly on a missing cell. -/
def Cell.notna : Cell → Bool
  | .missing => false
  | _ => true

/-- Embeds `isinstance(raw_value, (int, float, np.number))`.  Python
booleans pass this check because `bool` subclasses `int`. -/
def Cell.isNumericInstance : Cell → Bool
  | .num _ => true
  | .boolean _ => true
  | _ => false

/-- Embeds `float(raw_value)` on the values that pass the numeric
`isinstance` check: `float(True) = 1.0`, `float(False) = 0.0`. -/
def Cell.toPyFloat : Cell → ℚ
  | .num q => q
  | .boolean b => if b then 1 else 0
  | _ => 0

/-- Python `round` with one argument on a float: round half to even
(banker's rounding), returning an integer.  Implemented on the exact
rational by numerator/denominator arithmetic (so that it evaluates by
kernel reduction); `2 * (q.num - ⌊q⌋ * q.den)` compared with `q.den`
decides whether the fractional part is below, above, or exactly one
half.  The lemma `pyRound_eq_floor_characterization` below shows this
agrees with the textbook round-half-to-even description. -/
def pyRound (q : ℚ) : ℤ :=
  let f := q.floor
  let twiceFrac := 2 * (q.num - f * (q.den : ℤ))
  if twiceFrac < (q.den : ℤ) then f
  else if (q.den : ℤ) < twiceFrac then f + 1
  else if f % 2 = 0 then f else f + 1

/-- A data row of the sheet: the first-column value (the opportunity
identifier, `none` when that cell is null and hence dropped by
`dropna()`), and the remaining cells aligned with the non-first
columns. -/
structure Row where
  opp : Option String
  cells : List Cell
deriving DecidableEq

/-- The table read from the first sheet: the first column's name, the
names of the remaining columns (in sheet order, reserved names
included), and the data rows. -/
structure Table where
  oppColName : String
  restCols : List String
  rows : List Row
deriving DecidableEq

/-- Python `str.strip()`: remove whitespace from both ends.  Implemented
on the character list (equivalent to `String.trim`, but evaluates by
kernel reduction). -/
def pyStrip (s : String) : String :=
  ⟨((s.data.dropWhile Char.isWhitespace).reverse.dropWhile Char.isWhitespace).reverse⟩

/-- Python `str.lower()` on the ASCII column names at issue: lower-case
every character. -/
def pyLower (s : String) : String :=
  ⟨s.data.map Char.toLower⟩

/-- Embeds the reserved-name test `d.strip().lower() in ['score', 'total score']`. -/
def reservedName (d : String) : Bool :=
  pyLower (pyStrip d) == "score" || pyLower (pyStrip d) == "total score"

/-- Embeds the comprehension
`[d for d in df.columns[1:] if d.strip().lower() not in ['score', 'total score']]`. -/
def differentiatorsOf (t : Table) : List String :=
  t.restCols.filter (fun d => !reservedName d)

/-- Helper for `pandas.unique`: keep each element not seen before,
remembering seen elements in `seen`. -/
def firstUniqueAux (seen : List String) : List String → List String
  | [] => []
  | x :: xs => if x ∈ seen then firstUniqueAux seen xs else x :: firstUniqueAux (x :: seen) xs

/-- Embeds `pandas.unique` order: keep the first occurrence of each
value, drop later duplicates. -/
def firstUniqueList (l : List String) : List String :=
  firstUniqueAux [] l

/-- Embeds `df[opportunity_col_name].dropna().unique().tolist()`:
the non-null first-column values, de-duplicated keeping first
occurrences, in order of appearance. -/
def business_opportunitiesOf (t : Table) : List String :=
  firstUniqueList (t.rows.filterMap (fun r => r.opp))

/-- Embeds `load_data` of `src/app.py`: `none` is a failed load (the
Python code shows an error and returns `None` four-fold).  Checks, in
the code's order: at least two columns, at least one data row, and
non-empty differentiator and opportunity lists.  On success the code
returns `(df, differentiators, business_opportunities, col_name)`; the
DataFrame (with its index set to the first column) is the table itself,
and the first column's name is `t.oppColName`, so only the two computed
lists are returned here. -/
def load_data (t : Table) : Option (List String × List String) :=
  if 1 + t.restCols.length < 2 then none
  else
    let diffs := differentiatorsOf t
    if t.rows.length < 1 then none
    else
      let opps := business_opportunitiesOf t
      if diffs.isEmpty || opps.isEmpty then none
      else some (diffs, opps)

/-- Value of column `d` in a row whose non-first cells are `cells`,
aligned with column names `cols`: the cell under the first column named
`d` (spreadsheet column names are unique after `pd.read_excel` mangling;
a row shorter than the header reads as missing, as pandas fills `NaN`). -/
def lookupCell (cols : List String) (cells : List Cell) (d : String) : Cell :=
  match (cols.zip cells).find? (fun p => p.1 == d) with
  | some p => p.2
  | none => Cell.missing

/-- Result of `df_defaults.loc[opportunity, differentiator]` on a
DataFrame indexed by the first column: no index match raises `KeyError`;
exactly one match returns the scalar cell; two or more matches return a
`Series` of all matching cells. -/
inductive LocResult where
  | keyErr : LocResult
  | scalar (c : Cell) : LocResult
  | series (cs : List Cell) : LocResult
deriving DecidableEq

/-- Embeds the `.loc` lookup of `src/app.py` line 69 against the table
whose index is the first column. -/
def locLookup (t : Table) (opp d : String) : LocResult :=
  match t.rows.filter (fun r => r.opp == some opp) with
  | [] => .keyErr
  | [r] => .scalar (lookupCell t.restCols r.cells d)
  | rs => .series (rs.map (fun r => lookupCell t.restCols r.cells d))

/-- Diagnostic notes appended to `initialization_warnings`, one
constructor per f-string of `src/app.py` lines 75-89. -/
inductive Note where
  | clamp (opp d : String) (raw : Cell) (finalv : ℤ) : Note
  | nonNumeric (opp d : String) (raw : Cell) : Note
  | missingValue (opp d : String) : Note
  | columnNotFound (d : String) : Note
  | oppNotFound (opp d : String) : Note
  | readError (opp d : String) : Note
deriving DecidableEq

/-- Embeds `f"{opportunity}_{differentiator}"`, the single key format
used by the initializer (line 65), the aggregator (line 104) and the
slider widget (line 151). -/
def slider_key (opp d : String) : String :=
  opp ++ "_" ++ d

/-- One iteration of the default-rating loop body (lines 66-90 of
`src/app.py`) for the pair `(opp, d)`: the rating stored into
`st.session_state.scores[slider_key]` and the notes appended (at most
one per iteration).  Branches:
the column-membership guard (line 68); `KeyError` from `.loc` (line 85)
when no index row matches; when the index holds duplicates `.loc`
returns a `Series`, and `if pd.notna(raw_value) and ...` then raises
`ValueError` (truth value of a `Series` is ambiguous), caught by the
generic `except` (line 88); a numeric scalar is rounded then clamped
with `max(1, min(5, int(round(float(raw)))))`, noting the clamp exactly
when it changed the rounded value; a present non-numeric scalar and a
missing scalar fall back to 3 with their respective notes. -/
def deriveCell (t : Table) (opp d : String) : ℤ × List Note :=
  if d ∈ t.restCols then
    match locLookup t opp d with
    | .keyErr => (3, [.oppNotFound opp d])
    | .series _ => (3, [.readError opp d])
    | .scalar c =>
      if c.notna && c.isNumericInstance then
        let clamped := pyRound c.toPyFloat
        let finalv := max 1 (min 5 clamped)
        (finalv, if finalv ≠ clamped then [.clamp opp d c finalv] else [])
      else if c.notna then (3, [.nonNumeric opp d c])
      else (3, [.missingValue opp d])
  else (3, [.columnNotFound d])

/-- The rating store `st.session_state.scores`: a Python dict modelled
as an association list where the most recent assignment is first. -/
def insertStore (s : List (String × ℤ)) (k : String) (v : ℤ) : List (String × ℤ) :=
  (k, v) :: s

/-- Dictionary lookup in the rating store: the most recent value
written under `k`, if any. -/
def getStore (s : List (String × ℤ)) (k : String) : Option ℤ :=
  (s.find? (fun p => p.1 == k)).map (fun p => p.2)

/-- Embeds the initialization loop of `src/app.py` lines 59-93:
opportunities outer, differentiators inner, each iteration storing one
rating under `slider_key` and appending its notes. -/
def initScores (t : Table) (opps diffs : List String) : List (String × ℤ) × List Note :=
  opps.foldl
    (fun acc opp =>
      diffs.foldl
        (fun acc2 d =>
          let r := deriveCell t opp d
          (insertStore acc2.1 (slider_key opp d) r.1, acc2.2 ++ r.2))
        acc)
    ([], [])

/-- Embeds the inner sum of `src/app.py` lines 101-106:
`total_score += st.session_state.scores.get(slider_key, 3)` over the
filtered differentiator list. -/
def totalFor (scores : List (String × ℤ)) (diffs : List String) (opp : String) : ℤ :=
  diffs.foldl (fun s d => s + ((getStore scores (slider_key opp d)).getD 3)) 0

/-- Embeds `live_results` (lines 97-107): one `(opportunity, total)`
pair per opportunity, in opportunity-list order. -/
def live_results (scores : List (String × ℤ)) (opps diffs : List String) :
    List (String × ℤ) :=
  opps.map (fun opp => (opp, totalFor scores diffs opp))

/-- Embeds `live_results_df.sort_values(by='Current Score', ascending=False)`
(line 110).  pandas `sort_values` on one column with `ascending=False`
calls `nargsort`, which argsorts the key ascending and then reverses the
whole indexer (`indexer = indexer[::-1]`); the ascending argsort is
modelled as a stable sort, matching numpy's behaviour on the small
arrays at issue.  Consequently rows with equal keys appear in reversed
input order. -/
def rankResults (xs : List (String × ℤ)) : List (String × ℤ) :=
  (xs.mergeSort (fun a b => decide (a.2 ≤ b.2))).reverse

/-- The table with the reserved score columns deleted (both the column
names and, in every row, the cells lying under them).  Used to state
that those columns never influence ratings or totals. -/
def dropReserved (t : Table) : Table where
  oppColName := t.oppColName
  restCols := t.restCols.filter (fun d => !reservedName d)
  rows := t.rows.map (fun r =>
    { opp := r.opp,
      cells := ((t.restCols.zip r.cells).filter (fun p => !reservedName p.1)).map
        (fun p => p.2) })

/-- A minimal valid table: one opportunity `A`, one differentiator `D`,
seed value 4. -/
def tableBasic : Table :=
  { oppColName := "Opportunity", restCols := ["D"],
    rows := [{ opp := some "A", cells := [Cell.num 4] }] }

/-- A table whose first column repeats the identifier `A` (two data
rows, seeds 5 and 2). -/
def tableDupOpp : Table :=
  { oppColName := "Opportunity", restCols := ["D"],
    rows := [{ opp := some "A", cells := [Cell.num 5] },
             { opp := some "A", cells := [Cell.num 2] }] }

/-- A table with out-of-range seeds 7 and -2. -/
def tableOutOfRange : Table :=
  { oppColName := "Opportunity", restCols := ["D", "E"],
    rows := [{ opp := some "A", cells := [Cell.num 7, Cell.num (-2)] }] }

/-- A table with a missing cell and a textual cell. -/
def tableMissingText : Table :=
  { oppColName := "Opportunity", restCols := ["D", "E"],
    rows := [{ opp := some "A", cells := [Cell.missing, Cell.text "high"] }] }

/-- A table with boolean cells `True` and `False`. -/
def tableBools : Table :=
  { oppColName := "Opportunity", restCols := ["D", "E"],
    rows := [{ opp := some "A", cells := [Cell.boolean true, Cell.boolean false] }] }

/-- A table carrying reserved `Score` / `Total Score` columns next to a
real differentiator. -/
def tableWithScoreCols : Table :=
  { oppColName := "Opportunity", restCols := ["Speed", " Score ", "Total Score"],
    rows := [{ opp := some "A", cells := [Cell.num 4, Cell.num 9, Cell.num 9] }] }

/-! Helper lemmas. -/

theorem rat_floor_eq_int_floor (q : ℚ) : q.floor = ⌊q⌋ := by
  rw [Rat.floor_def', Rat.floor_def]

theorem num_eq_mul_den (q : ℚ) : (q.num : ℚ) = q * (q.den : ℚ) := by
  have hd0 : ((q.den : ℚ)) ≠ 0 := by
    exact_mod_cast q.den_nz
  have h := Rat.num_div_den q
  rw [div_eq_iff hd0] at h
  exact h

theorem twiceFrac_lt_iff (q : ℚ) :
    2 * (q.num - ⌊q⌋ * (q.den : ℤ)) < (q.den : ℤ) ↔ q - ⌊q⌋ < 1/2 := by
  have hd0 : (0:ℚ) < (q.den : ℚ) := by exact_mod_cast q.pos
  rw [← @Int.cast_lt ℚ]
  push_cast
  rw [num_eq_mul_den]
  constructor
  · intro h
    nlinarith
  · intro h
    nlinarith

theorem twiceFrac_gt_iff (q : ℚ) :
    (q.den : ℤ) < 2 * (q.num - ⌊q⌋ * (q.den : ℤ)) ↔ 1/2 < q - ⌊q⌋ := by
  have hd0 : (0:ℚ) < (q.den : ℚ) := by exact_mod_cast q.pos
  rw [← @Int.cast_lt ℚ]
  push_cast
  rw [num_eq_mul_den]
  constructor
  · intro h
    nlinarith
  · intro h
    nlinarith

/-- The numerator/denominator implementation of `pyRound` agrees with
the textbook round-half-to-even description. -/
theorem pyRound_eq_floor_characterization (q : ℚ) :
    pyRound q =
      if q - ⌊q⌋ < 1/2 then ⌊q⌋
      else if 1/2 < q - ⌊q⌋ then ⌊q⌋ + 1
      else if ⌊q⌋ % 2 = 0 then ⌊q⌋ else ⌊q⌋ + 1 := by
  simp only [pyRound, rat_floor_eq_int_floor]
  simp only [twiceFrac_lt_iff, twiceFrac_gt_iff]

/-- Sanity of the rounding model: ties go to the even integer, as
Python's `round` does (`round(2.5) == 2`, `round(3.5) == 4`,
`round(-2.5) == -2`). -/
theorem pyRound_half_to_even_examples :
    pyRound (mkRat 5 2) = 2 ∧ pyRound (mkRat 7 2) = 4 ∧
      pyRound (mkRat (-5) 2) = -2 ∧ pyRound 7 = 7 ∧ pyRound (-2) = -2 := by
  decide

theorem deriveCell_scalar (t : Table) (opp d : String) (c : Cell)
    (hd : d ∈ t.restCols) (hl : locLookup t opp d = .scalar c) :
    deriveCell t opp d =
      if c.notna && c.isNumericInstance then
        (max 1 (min 5 (pyRound c.toPyFloat)),
         if max 1 (min 5 (pyRound c.toPyFloat)) ≠ pyRound c.toPyFloat
         then [.clamp opp d c (max 1 (min 5 (pyRound c.toPyFloat)))] else [])
      else if c.notna then (3, [.nonNumeric opp d c])
      else (3, [.missingValue opp d]) := by
  unfold deriveCell
  rw [if_pos hd, hl]

theorem deriveCell_rating_bounds (t : Table) (opp d : String) :
    1 ≤ (deriveCell t opp d).1 ∧ (deriveCell t opp d).1 ≤ 5 := by
  unfold deriveCell
  split
  · cases hl : locLookup t opp d with
    | keyErr => simp
    | series cs => simp
    | scalar c =>
      dsimp only
      split
      · refine ⟨le_max_left _ _, max_le (by norm_num) (min_le_left _ _)⟩
      · split <;> simp
  · simp

theorem foldl_diffs_bounds (t : Table) (opp : String) (diffs : List String) :
    ∀ (acc : List (String × ℤ) × List Note),
      (∀ kv ∈ acc.1, 1 ≤ kv.2 ∧ kv.2 ≤ 5) →
      ∀ kv ∈ (diffs.foldl
        (fun acc2 d =>
          let r := deriveCell t opp d
          (insertStore acc2.1 (slider_key opp d) r.1, acc2.2 ++ r.2)) acc).1,
        1 ≤ kv.2 ∧ kv.2 ≤ 5 := by
  induction diffs with
  | nil => intro acc h kv hkv; exact h kv hkv
  | cons d ds ih =>
    intro acc h kv hkv
    rw [List.foldl_cons] at hkv
    refine ih _ ?_ kv hkv
    intro kv2 hkv2
    rcases List.mem_cons.mp hkv2 with h1 | h2
    · subst h1; exact deriveCell_rating_bounds t opp d
    · exact h kv2 h2

theorem foldl_opps_bounds (t : Table) (diffs : List String) (opps : List String) :
    ∀ (acc : List (String × ℤ) × List Note),
      (∀ kv ∈ acc.1, 1 ≤ kv.2 ∧ kv.2 ≤ 5) →
      ∀ kv ∈ (opps.foldl (fun acc opp => diffs.foldl
        (fun acc2 d =>
          let r := deriveCell t opp d
          (insertStore acc2.1 (slider_key opp d) r.1, acc2.2 ++ r.2)) acc) acc).1,
        1 ≤ kv.2 ∧ kv.2 ≤ 5 := by
  induction opps with
  | nil => intro acc h kv hkv; exact h kv hkv
  | cons o os ih =>
    intro acc h kv hkv
    rw [List.foldl_cons] at hkv
    exact ih _ (foldl_diffs_bounds t o diffs _ h) kv hkv

theorem initScores_store_bounds (t : Table) (opps diffs : List String) :
    ∀ kv ∈ (initScores t opps diffs).1, 1 ≤ kv.2 ∧ kv.2 ≤ 5 := by
  intro kv hkv
  exact foldl_opps_bounds t diffs opps ([], []) (by simp) kv hkv

theorem foldl_add_map_sum (f : String → ℤ) (l : List String) (a : ℤ) :
    l.foldl (fun s d => s + f d) a = a + (l.map f).sum := by
  induction l generalizing a with
  | nil => simp
  | cons d ds ih => simp [ih, add_assoc]

theorem totalFor_eq_sum (scores : List (String × ℤ)) (diffs : List String) (opp : String) :
    totalFor scores diffs opp
      = (diffs.map (fun d => (getStore scores (slider_key opp d)).getD 3)).sum := by
  unfold totalFor
  rw [foldl_add_map_sum]
  simp

/-! Claim theorems. -/

/-- C1: for every successfully loaded table, every rating stored by the
default-rating derivation is an integer in the range [1, 5] (each
branch stores either the fallback 3 or the rounded value clamped with
`max(1, min(5, v))`). -/
theorem C1_initial_ratings_in_range (t : Table) (diffs opps : List String)
    (h : load_data t = some (diffs, opps)) (k : String) (v : ℤ)
    (hv : getStore (initScores t opps diffs).1 k = some v) :
    1 ≤ v ∧ v ≤ 5 := by
  unfold getStore at hv
  cases hfind : (initScores t opps diffs).1.find? (fun p => p.1 == k) with
  | none => rw [hfind] at hv; simp at hv
  | some p =>
    rw [hfind] at hv
    simp only [Option.map_some', Option.some.injEq] at hv
    have hb := initScores_store_bounds t opps diffs p (List.mem_of_find?_eq_some hfind)
    omega

/-- Witness for C1 at the one-cell table with seed 4. -/
theorem C1_initial_ratings_in_range_witness : (1:ℤ) ≤ 4 ∧ (4:ℤ) ≤ 5 :=
  C1_initial_ratings_in_range tableBasic ["D"] ["A"] (by decide) "A_D" 4 (by decide)

/-- C2: for every opportunity in the opportunity list, the aggregator
records the arithmetic sum of that opportunity's ratings over the
filtered differentiator list, a missing store entry contributing 3. -/
theorem C2_totals_are_sums (scores : List (String × ℤ)) (opps diffs : List String)
    (opp : String) (h : opp ∈ opps) :
    (opp, (diffs.map (fun d => (getStore scores (slider_key opp d)).getD 3)).sum)
      ∈ live_results scores opps diffs := by
  unfold live_results
  rw [← totalFor_eq_sum]
  exact List.mem_map_of_mem _ h

/-- Witness for C2: ratings 5, 2, 4 over differentiators A, B, C give
total 11. -/
theorem C2_totals_are_sums_witness :
    ("O", (11:ℤ)) ∈ live_results [("O_A", 5), ("O_B", 2), ("O_C", 4)] ["O"] ["A", "B", "C"] := by
  have h := C2_totals_are_sums [("O_A", 5), ("O_B", 2), ("O_C", 4)] ["O"] ["A", "B", "C"] "O"
    (by decide)
  have e : ((["A", "B", "C"].map
      (fun d => (getStore [("O_A", (5:ℤ)), ("O_B", 2), ("O_C", 4)]
        (slider_key "O" d)).getD 3)).sum) = (11:ℤ) := by decide
  rw [e] at h
  exact h

theorem mergeSort_pair {α : Type} (le : α → α → Bool) (a b : α) :
    List.mergeSort [a, b] le = if le a b then [a, b] else [b, a] := by
  rw [List.mergeSort]
  simp only [List.splitInTwo_fst, List.splitInTwo_snd]
  norm_num [List.mergeSort_singleton]
  cases h : le a b <;> simp [List.merge, h]

theorem pairLE_trans : ∀ (a b c : String × ℤ),
    (decide (a.2 ≤ b.2)) → (decide (b.2 ≤ c.2)) → (decide (a.2 ≤ c.2)) := by
  intro a b c h1 h2
  simp only [decide_eq_true_eq] at *
  omega

theorem pairLE_total : ∀ (a b : String × ℤ),
    (decide (a.2 ≤ b.2)) || (decide (b.2 ≤ a.2)) := by
  intro a b
  simp only [Bool.or_eq_true, decide_eq_true_eq]
  omega

/-- C3 counterexample: two opportunities X and Y, X before Y in the
aggregator output, with equal totals 11.  The ranker (pandas
`sort_values` descending) places Y first, contradicting the claimed
preservation of input order on ties. -/
theorem C3_stable_ties_counterexample :
    rankResults [("X", (11:ℤ)), ("Y", 11)] = [("Y", 11), ("X", 11)] ∧
    rankResults [("X", (11:ℤ)), ("Y", 11)] ≠ [("X", 11), ("Y", 11)] := by
  have h : List.mergeSort [("X", (11:ℤ)), ("Y", 11)] (fun a b => decide (a.2 ≤ b.2))
      = [("X", 11), ("Y", 11)] := by
    rw [mergeSort_pair]
    norm_num
  constructor
  · unfold rankResults
    rw [h]
    rfl
  · unfold rankResults
    rw [h]
    decide

/-- C3 amended: the ranker returns a permutation of the aggregator's
output sorted descending by total, but the relative order of two
opportunities with equal totals is the REVERSE of their input order
(pandas `nargsort` argsorts ascending and then reverses the whole
indexer). -/
theorem C3_ranker_descending_ties_reversed :
    (∀ xs : List (String × ℤ), List.Perm (rankResults xs) xs) ∧
    (∀ xs : List (String × ℤ), (rankResults xs).Pairwise (fun a b => b.2 ≤ a.2)) ∧
    (∀ (xs : List (String × ℤ)) (a b : String × ℤ),
      List.Sublist [a, b] xs → a.2 = b.2 → List.Sublist [b, a] (rankResults xs)) := by
  refine ⟨?_, ?_, ?_⟩
  · intro xs
    exact (List.reverse_perm _).trans (List.mergeSort_perm xs _)
  · intro xs
    unfold rankResults
    rw [List.pairwise_reverse]
    have h := List.sorted_mergeSort pairLE_trans pairLE_total xs
    exact h.imp (fun hab => of_decide_eq_true hab)
  · intro xs a b hsub heq
    unfold rankResults
    have hpair : ([a, b] : List (String × ℤ)).Pairwise
        (fun x y => (decide (x.2 ≤ y.2)) = true) := by
      simp [heq]
    have h := List.sublist_mergeSort pairLE_trans pairLE_total hpair hsub
    simpa using h.reverse

/-- Witness for the amended C3 at the two-way tie. -/
theorem C3_ranker_descending_ties_reversed_witness :
    List.Sublist [("Y", (11:ℤ)), ("X", 11)] (rankResults [("X", 11), ("Y", 11)]) :=
  C3_ranker_descending_ties_reversed.2.2 [("X", 11), ("Y", 11)] ("X", 11) ("Y", 11)
    (List.Sublist.refl _) rfl

/-- C4 counterexample: in `tableDupOpp` the identifier A appears in two
rows (first seed 5, second seed 2).  Were the first matching row used,
the derived rating would be `max 1 (min 5 (pyRound 5)) = 5`; the code
instead derives 3 with a read-error note, because `.loc` returns a
`Series` whose truth test raises. -/
theorem C4_first_occurrence_counterexample :
    2 ≤ (tableDupOpp.rows.filter (fun r => r.opp == some "A")).length ∧
    tableDupOpp.rows.head? = some { opp := some "A", cells := [Cell.num 5] } ∧
    deriveCell tableDupOpp "A" "D" = (3, [Note.readError "A" "D"]) ∧
    (deriveCell tableDupOpp "A" "D").1 ≠ max 1 (min 5 (pyRound 5)) := by
  decide

/-- C4 amended: when duplicate opportunity identifiers exist in the
first column, the `.loc` lookup returns a `Series` of all matching rows,
the conjunction `pd.notna(raw) and isinstance(...)` raises `ValueError`
on it, and the generic exception handler stores the fallback 3 with an
error note — for every differentiator of that opportunity.  The first
matching row's value is not used. -/
theorem C4_duplicate_ids_use_fallback (t : Table) (opp d : String)
    (hd : d ∈ t.restCols)
    (hdup : 2 ≤ (t.rows.filter (fun r => r.opp == some opp)).length) :
    deriveCell t opp d = (3, [Note.readError opp d]) := by
  unfold deriveCell locLookup
  rw [if_pos hd]
  rcases hl : t.rows.filter (fun r => r.opp == some opp) with _ | ⟨r1, rest⟩
  · rw [hl] at hdup; simp at hdup
  · rcases rest with _ | ⟨r2, rs⟩
    · rw [hl] at hdup; simp at hdup
    · rw [hl]

/-- Witness for the amended C4 at the concrete duplicate table. -/
theorem C4_duplicate_ids_use_fallback_witness :
    deriveCell tableDupOpp "A" "D" = (3, [Note.readError "A" "D"]) :=
  C4_duplicate_ids_use_fallback tableDupOpp "A" "D" (by decide) (by decide)

/-- C5: a present numeric cell derives the rating
`max 1 (min 5 (pyRound q))` — round to nearest (half to even), then
clamp to [1, 5] — and a clamp note is recorded exactly when clamping
changed the rounded value. -/
theorem C5_numeric_rounded_then_clamped (t : Table) (opp d : String) (q : ℚ)
    (hd : d ∈ t.restCols) (hl : locLookup t opp d = .scalar (.num q)) :
    deriveCell t opp d =
      (max 1 (min 5 (pyRound q)),
       if max 1 (min 5 (pyRound q)) ≠ pyRound q
       then [Note.clamp opp d (.num q) (max 1 (min 5 (pyRound q)))] else []) := by
  rw [deriveCell_scalar t opp d _ hd hl]
  simp [Cell.notna, Cell.isNumericInstance, Cell.toPyFloat]

/-- Witness for C5: seed 7 derives 5 with a clamp note; seed -2 derives
1 with a clamp note. -/
theorem C5_numeric_rounded_then_clamped_witness :
    deriveCell tableOutOfRange "A" "D" = (5, [Note.clamp "A" "D" (Cell.num 7) 5]) ∧
    deriveCell tableOutOfRange "A" "E" = (1, [Note.clamp "A" "E" (Cell.num (-2)) 1]) := by
  constructor
  · rw [C5_numeric_rounded_then_clamped tableOutOfRange "A" "D" 7 (by decide) (by decide)]
    decide
  · rw [C5_numeric_rounded_then_clamped tableOutOfRange "A" "E" (-2) (by decide) (by decide)]
    decide

/-- C6: a missing cell derives rating 3 with exactly a missing-value
note (no clamp note); a present non-numeric cell derives rating 3 with
exactly a non-numeric note reporting the raw value; and for any scalar
cell the non-numeric note is emitted iff the value is present and not
interpretable as a real number. -/
theorem C6_missing_and_nonnumeric_fallbacks (t : Table) (opp d : String)
    (s : String) (c : Cell) (hd : d ∈ t.restCols) :
    (locLookup t opp d = .scalar .missing →
      deriveCell t opp d = (3, [Note.missingValue opp d])) ∧
    (locLookup t opp d = .scalar (.text s) →
      deriveCell t opp d = (3, [Note.nonNumeric opp d (.text s)])) ∧
    (locLookup t opp d = .scalar c →
      ((deriveCell t opp d).2 = [Note.nonNumeric opp d c] ↔
        c.notna = true ∧ c.isNumericInstance = false)) := by
  refine ⟨?_, ?_, ?_⟩
  · intro hl
    rw [deriveCell_scalar t opp d _ hd hl]
    simp [Cell.notna, Cell.isNumericInstance]
  · intro hl
    rw [deriveCell_scalar t opp d _ hd hl]
    simp [Cell.notna, Cell.isNumericInstance]
  · intro hl
    rw [deriveCell_scalar t opp d _ hd hl]
    cases c <;> simp [Cell.notna, Cell.isNumericInstance] <;> split <;> simp

/-- Witness for C6: the missing cell and the text cell of
`tableMissingText`. -/
theorem C6_missing_and_nonnumeric_fallbacks_witness :
    deriveCell tableMissingText "A" "D" = (3, [Note.missingValue "A" "D"]) ∧
    deriveCell tableMissingText "A" "E" = (3, [Note.nonNumeric "A" "E" (Cell.text "high")]) :=
  ⟨(C6_missing_and_nonnumeric_fallbacks tableMissingText "A" "D" "high" Cell.missing
      (by decide)).1 (by decide),
   (C6_missing_and_nonnumeric_fallbacks tableMissingText "A" "E" "high" Cell.missing
      (by decide)).2.1 (by decide)⟩

/-- C10: boolean cells pass the numeric `isinstance` check, so they are
treated as numbers, never emitting a non-numeric note: True derives
rating 1 with no note at all; False derives rating 1 with a clamp note
(0 clamped to 1). -/
theorem C10_booleans_treated_numeric (t : Table) (opp d : String) (b : Bool)
    (hd : d ∈ t.restCols) (hl : locLookup t opp d = .scalar (.boolean b)) :
    deriveCell t opp d =
      (1, if b then [] else [Note.clamp opp d (.boolean false) 1]) := by
  rw [deriveCell_scalar t opp d _ hd hl]
  have h1 : pyRound 1 = 1 := by decide
  have h0 : pyRound 0 = 0 := by decide
  cases b <;> simp [Cell.notna, Cell.isNumericInstance, Cell.toPyFloat, h1, h0]

/-- Witness for C10: the True and False cells of `tableBools`. -/
theorem C10_booleans_treated_numeric_witness :
    deriveCell tableBools "A" "D" = (1, []) ∧
    deriveCell tableBools "A" "E" = (1, [Note.clamp "A" "E" (Cell.boolean false) 1]) := by
  constructor
  · rw [C10_booleans_treated_numeric tableBools "A" "D" true (by decide) (by decide)]
    decide
  · rw [C10_booleans_treated_numeric tableBools "A" "E" false (by decide) (by decide)]
    decide

/-- C9: the rating store is keyed by the bare concatenation
`opp ++ "_" ++ diff` used identically by the initializer, the slider
mutator, and the aggregator, and this keying is not injective:
("A_B", "C") and ("A", "B_C") are distinct pairs sharing the key
"A_B_C", so every store assigns them equal ratings, and writing a
rating under one pair is read back by the aggregator under the other,
changing that opportunity's total. -/
theorem C9_slider_key_collision :
    slider_key "A_B" "C" = slider_key "A" "B_C" ∧
    ("A_B", "C") ≠ ("A", "B_C") ∧
    (∀ s : List (String × ℤ),
      getStore s (slider_key "A_B" "C") = getStore s (slider_key "A" "B_C")) ∧
    (∀ (s : List (String × ℤ)) (v : ℤ),
      getStore (insertStore s (slider_key "A_B" "C") v) (slider_key "A" "B_C") = some v) ∧
    (∀ (s : List (String × ℤ)) (v : ℤ),
      totalFor (insertStore s (slider_key "A_B" "C") v) ["B_C"] "A" = v) := by
  have hk : slider_key "A_B" "C" = slider_key "A" "B_C" := by decide
  have h4 : ∀ (s : List (String × ℤ)) (v : ℤ),
      getStore (insertStore s (slider_key "A_B" "C") v) (slider_key "A" "B_C") = some v := by
    intro s v
    rw [← hk]
    simp [getStore, insertStore]
  refine ⟨hk, by decide, fun s => by rw [hk], h4, ?_⟩
  intro s v
  unfold totalFor
  simp [h4 s v]

theorem mem_firstUniqueAux (l : List String) :
    ∀ (seen : List String) (a : String),
      a ∈ firstUniqueAux seen l ↔ a ∈ l ∧ a ∉ seen := by
  induction l with
  | nil => intro seen a; simp [firstUniqueAux]
  | cons x xs ih =>
    intro seen a
    unfold firstUniqueAux
    split
    · rw [ih]
      constructor
      · rintro ⟨h1, h2⟩
        exact ⟨List.mem_cons_of_mem _ h1, h2⟩
      · rintro ⟨h1, h2⟩
        rcases List.mem_cons.mp h1 with rfl | h1
        · exact absurd (by assumption) h2
        · exact ⟨h1, h2⟩
    · rename_i hx
      constructor
      · intro h
        rcases List.mem_cons.mp h with rfl | h
        · exact ⟨List.mem_cons_self _ _, hx⟩
        · rw [ih] at h
          obtain ⟨h1, h2⟩ := h
          refine ⟨List.mem_cons_of_mem _ h1, fun ha => h2 (List.mem_cons_of_mem _ ha)⟩
      · rintro ⟨h1, h2⟩
        rcases List.mem_cons.mp h1 with rfl | h1
        · exact List.mem_cons_self _ _
        · by_cases hax : a = x
          · subst hax; exact List.mem_cons_self _ _
          · refine List.mem_cons_of_mem _ ?_
            rw [ih]
            refine ⟨h1, fun ha => ?_⟩
            rcases List.mem_cons.mp ha with h' | h'
            · exact hax h'
            · exact h2 h'

theorem firstUniqueAux_sublist (l : List String) :
    ∀ seen, List.Sublist (firstUniqueAux seen l) l := by
  induction l with
  | nil => intro seen; simp [firstUniqueAux]
  | cons x xs ih =>
    intro seen
    unfold firstUniqueAux
    split
    · exact List.Sublist.cons x (ih seen)
    · exact List.Sublist.cons₂ x (ih (x :: seen))

theorem firstUniqueAux_nodup (l : List String) :
    ∀ seen, (firstUniqueAux seen l).Nodup := by
  induction l with
  | nil => intro seen; simp [firstUniqueAux]
  | cons x xs ih =>
    intro seen
    unfold firstUniqueAux
    split
    · exact ih seen
    · rw [List.nodup_cons]
      refine ⟨fun hmem => ?_, ih (x :: seen)⟩
      rw [mem_firstUniqueAux] at hmem
      exact hmem.2 (List.mem_cons_self x seen)

theorem load_data_some (t : Table) (diffs opps : List String)
    (h : load_data t = some (diffs, opps)) :
    diffs = differentiatorsOf t ∧ opps = business_opportunitiesOf t := by
  simp only [load_data] at h
  split_ifs at h
  injection h with h
  injection h with hA hB
  exact ⟨hA.symm, hB.symm⟩

/-- C8: the loader fails exactly when the table has fewer than two
columns (no non-first column), no data rows, an empty differentiator
set after filtering, or an empty opportunity list; on success it
returns the filtered differentiator list and the de-duplicated,
null-free opportunity list in first-appearance order. -/
theorem C8_loader_contract (t : Table) :
    (load_data t = none ↔
      (t.restCols = [] ∨ t.rows = [] ∨ differentiatorsOf t = [] ∨
        business_opportunitiesOf t = [])) ∧
    (∀ diffs opps, load_data t = some (diffs, opps) →
      diffs = t.restCols.filter (fun d => !reservedName d) ∧
      opps = firstUniqueList (t.rows.filterMap (fun r => r.opp)) ∧
      opps.Nodup ∧
      List.Sublist opps (t.rows.filterMap (fun r => r.opp)) ∧
      (∀ o, o ∈ opps ↔ o ∈ t.rows.filterMap (fun r => r.opp))) := by
  constructor
  · simp only [load_data]
    split_ifs with h1 h2 h3
    · exact iff_of_true rfl (Or.inl (List.length_eq_zero.mp (by omega)))
    · exact iff_of_true rfl (Or.inr (Or.inl (List.length_eq_zero.mp (by omega))))
    · have h4 : (differentiatorsOf t).isEmpty = true ∨
          (business_opportunitiesOf t).isEmpty = true := by simpa using h3
      rcases h4 with h4 | h4
      · exact iff_of_true rfl (Or.inr (Or.inr (Or.inl (List.isEmpty_iff.mp h4))))
      · exact iff_of_true rfl (Or.inr (Or.inr (Or.inr (List.isEmpty_iff.mp h4))))
    · refine iff_of_false (by simp) ?_
      push_neg
      simp only [Bool.or_eq_true, not_or] at h3
      obtain ⟨hd, ho⟩ := h3
      refine ⟨?_, ?_, ?_, ?_⟩
      · intro hc
        exact h1 (by simp [hc])
      · intro hc
        exact h2 (by simp [hc])
      · intro hc
        exact hd (by simp [hc])
      · intro hc
        exact ho (by simp [hc])
  · intro diffs opps h
    obtain ⟨hd, ho⟩ := load_data_some t diffs opps h
    subst hd
    subst ho
    refine ⟨rfl, rfl, firstUniqueAux_nodup _ [], firstUniqueAux_sublist _ [], fun o => ?_⟩
    unfold business_opportunitiesOf firstUniqueList
    rw [mem_firstUniqueAux]
    simp

/-- Witness for C8 at the one-row table: loading it succeeds and the
resulting opportunity list is duplicate-free. -/
theorem C8_loader_contract_witness : (["A"] : List String).Nodup :=
  ((C8_loader_contract tableBasic).2 ["D"] ["A"] (by decide)).2.2.1

theorem find?_filter_of_imp {α : Type} (l : List α) (pr q : α → Bool)
    (h : ∀ a, pr a = true → q a = true) :
    (l.filter q).find? pr = l.find? pr := by
  induction l with
  | nil => rfl
  | cons a l ih =>
    by_cases hq : q a = true
    · rw [List.filter_cons_of_pos hq]
      by_cases hp : pr a = true
      · rw [List.find?_cons_of_pos _ hp, List.find?_cons_of_pos _ hp]
      · rw [List.find?_cons_of_neg _ hp, List.find?_cons_of_neg _ hp, ih]
    · rw [List.filter_cons_of_neg (by simpa using hq)]
      have hp : ¬ pr a = true := fun hpa => hq (h a hpa)
      rw [List.find?_cons_of_neg _ hp, ih]

theorem zip_filter_map_snd (q : String → Bool) :
    ∀ (cols : List String) (cells : List Cell),
      (cols.filter q).zip (((cols.zip cells).filter (fun p => q p.1)).map (fun p => p.2))
        = (cols.zip cells).filter (fun p => q p.1) := by
  intro cols
  induction cols with
  | nil => intro cells; rfl
  | cons c cs ih =>
    intro cells
    cases cells with
    | nil => simp
    | cons x xs =>
      by_cases hq : q c = true
      · simp [List.filter_cons, hq, ih]
      · simp [List.filter_cons, hq, ih]

theorem lookupCell_dropReserved (cols : List String) (cells : List Cell) (d : String)
    (hq : reservedName d = false) :
    lookupCell (cols.filter (fun x => !reservedName x))
      (((cols.zip cells).filter (fun p => !reservedName p.1)).map (fun p => p.2)) d
      = lookupCell cols cells d := by
  unfold lookupCell
  rw [zip_filter_map_snd (fun x => !reservedName x) cols cells]
  rw [find?_filter_of_imp]
  intro p hp
  have hpd : p.1 = d := eq_of_beq hp
  rw [hpd, hq]
  rfl

theorem locLookup_dropReserved (t : Table) (opp d : String)
    (hq : reservedName d = false) :
    locLookup (dropReserved t) opp d = locLookup t opp d := by
  unfold locLookup dropReserved
  rw [List.filter_map]
  have hcomp : ((fun r : Row => r.opp == some opp) ∘
      (fun r : Row => Row.mk r.opp
        (((t.restCols.zip r.cells).filter (fun p => !reservedName p.1)).map (fun p => p.2))))
      = (fun r : Row => r.opp == some opp) := rfl
  rw [hcomp]
  cases hl : t.rows.filter (fun r => r.opp == some opp) with
  | nil => rfl
  | cons r1 rest =>
    cases rest with
    | nil =>
      simp only [List.map_cons, List.map_nil]
      exact congrArg LocResult.scalar (lookupCell_dropReserved t.restCols r1.cells d hq)
    | cons r2 rs =>
      simp only [List.map_cons, List.map_map]
      congr 1
      rw [lookupCell_dropReserved t.restCols r1.cells d hq,
        lookupCell_dropReserved t.restCols r2.cells d hq]
      simp only [List.cons.injEq, true_and]
      refine List.map_congr_left ?_
      intro r hr
      exact lookupCell_dropReserved t.restCols r.cells d hq

theorem deriveCell_dropReserved (t : Table) (opp d : String)
    (hd : d ∈ t.restCols) (hq : reservedName d = false) :
    deriveCell (dropReserved t) opp d = deriveCell t opp d := by
  have hd2 : d ∈ (dropReserved t).restCols := by
    unfold dropReserved
    simp only [List.mem_filter]
    exact ⟨hd, by simp [hq]⟩
  unfold deriveCell
  rw [if_pos hd, if_pos hd2, locLookup_dropReserved t opp d hq]

theorem initScores_congr (t1 t2 : Table) (opps diffs : List String)
    (h : ∀ opp, ∀ d ∈ diffs, deriveCell t1 opp d = deriveCell t2 opp d) :
    initScores t1 opps diffs = initScores t2 opps diffs := by
  unfold initScores
  refine List.foldl_ext _ _ _ ?_
  intro acc opp _
  refine List.foldl_ext _ _ _ ?_
  intro acc2 d hd
  rw [h opp d hd]

/-- C7: the reserved score columns (name trimmed and lower-cased equal
to "score" or "total score") are excluded from the differentiator set,
every other non-first column appears in it in original column order,
and reserved columns never contribute to ratings or totals: deleting
them from the table leaves the initialization (ratings and notes) and
hence the live totals unchanged. -/
theorem C7_reserved_columns_never_used (t : Table) (diffs opps : List String)
    (h : load_data t = some (diffs, opps)) :
    (∀ d ∈ diffs, reservedName d = false) ∧
    (∀ d ∈ t.restCols, reservedName d = false → d ∈ diffs) ∧
    List.Sublist diffs t.restCols ∧
    initScores (dropReserved t) opps diffs = initScores t opps diffs ∧
    live_results (initScores (dropReserved t) opps diffs).1 opps diffs
      = live_results (initScores t opps diffs).1 opps diffs := by
  obtain ⟨hdiffs, -⟩ := load_data_some t diffs opps h
  subst hdiffs
  have hmem : ∀ d ∈ differentiatorsOf t, reservedName d = false := by
    intro d hd
    have := (List.mem_filter.mp hd).2
    simpa using this
  have hinit : initScores (dropReserved t) opps (differentiatorsOf t)
      = initScores t opps (differentiatorsOf t) := by
    refine initScores_congr _ _ _ _ ?_
    intro opp d hd
    exact deriveCell_dropReserved t opp d (List.mem_filter.mp hd).1 (hmem d hd)
  refine ⟨hmem, ?_, List.filter_sublist _, hinit, by rw [hinit]⟩
  intro d hd hq
  exact List.mem_filter.mpr ⟨hd, by simp [hq]⟩

/-- Witness for C7 at the concrete table carrying `Score` and
`Total Score` columns: dropping them does not change initialization. -/
theorem C7_reserved_columns_never_used_witness :
    initScores (dropReserved tableWithScoreCols) ["A"] ["Speed"]
      = initScores tableWithScoreCols ["A"] ["Speed"] :=
  (C7_reserved_columns_never_used tableWithScoreCols ["Speed"] ["A"] (by decide)).2.2.2.1

end BizTool
